import Mathlib

/-!
# Branch governance engine: a shallow embedding

This file embeds, in Lean, the decision logic of the branch governance
scripts of this repository:

* `scripts/git/branch-audit.sh` — the naming classifier (`VALID_PATTERNS`,
  `check_naming_convention`) and the exit-code computation of
  `collect_branch_data` / `main`;
* `scripts/git/branch-cleanup.sh` — `is_protected`, `archive_branch`,
  `confirm_deletion`, `delete_branch`, the three cleanup passes
  (`cleanup_merged_branches`, `cleanup_stale_unmerged`,
  `cleanup_orphaned_agent_branches`) and the final exit-code logic of `main`;
* `prepare-agent-branch.sh` — `validate_session_id`, `sanitize_task_name`,
  `construct_branch_name` and the `main` pipeline;
* `agent-logger.js` (`logAgentMessage`) and `supabase-client.js`
  (`logAgentCommunication`) — the error-propagation structure of the
  logging wrappers.

External collaborators (git itself, the database client, the log-shipping
sink) are modelled at their boundary: a branch record carries the answers
git would give (`ageDays`, `merged`), tag creation fails exactly when the
tag name already exists, a forced `git branch -D` of an existing branch
succeeds, a plain `git branch -d` succeeds exactly on merged branches, and
the backends' outcomes (error result / thrown exception) are explicit inputs.
Shell state (`DELETED_COUNT`, …) is threaded through an explicit state
record, and every performed or `[DRY-RUN] Would …` report of a destructive
operation is recorded as a `CleanupAction` in an append-only list.

Both shell scripts run under `set -euo pipefail`, which changes their
control flow drastically.  `((X++))` is an arithmetic command whose exit
status is 1 when the expression's value — the pre-increment value — is 0,
so the first increment of a counter from 0 performs the increment and then
kills the script; `archive_branch`'s collision branch ends in `return 1`
from a bare (non-conditional) call, which also kills the script.  The
cleanup is therefore embedded twice: `runCleanup` is the per-branch
decision logic with these aborts ignored (it processes every branch and
over-approximates the recorded actions, which is what the protected-branch
invariant needs), while `runCleanupExec` is the faithful execution, an
`Except St St` value whose `error` constructor carries the state at the
moment `set -e` terminated the process (exit status 1).  For the audit,
`auditExitCode` is the value of the `EXIT_CODE` variable computed by
`collect_branch_data`, and `branchAuditExit` is the exit status of `main`
as observed: under `set -u`, expanding the length of a
declared-but-never-assigned array is a fatal error, and `generate_report`
reads the lengths of all four category arrays unconditionally.
-/

/-! ## Character classes used by the shell regexes (C locale, ASCII) -/

/-- The class `[a-z0-9-]` of the policy patterns and of `TASK_NAME_PATTERN`. -/
def isTaskChar (c : Char) : Bool :=
  (decide (97 ≤ c.toNat) && decide (c.toNat ≤ 122)) ||
  (decide (48 ≤ c.toNat) && decide (c.toNat ≤ 57)) ||
  c == '-'

/-- The class `[A-Za-z0-9]` of the session-id patterns. -/
def isAlnumChar (c : Char) : Bool :=
  (decide (97 ≤ c.toNat) && decide (c.toNat ≤ 122)) ||
  (decide (65 ≤ c.toNat) && decide (c.toNat ≤ 90)) ||
  (decide (48 ≤ c.toNat) && decide (c.toNat ≤ 57))

/-- The class `[0-9]` of the release pattern. -/
def isDigitChar (c : Char) : Bool :=
  decide (48 ≤ c.toNat) && decide (c.toNat ≤ 57)

/-- `p+` for a character class `p`: a non-empty run of class characters. -/
def seg (p : Char → Bool) (cs : List Char) : Bool :=
  !cs.isEmpty && cs.all p

/-- `[A-Za-z0-9]{24,32}`: the session-id segment. -/
def sessionChars (cs : List Char) : Bool :=
  cs.all isAlnumChar && decide (24 ≤ cs.length) && decide (cs.length ≤ 32)

/-- `[a-z0-9-]+-[A-Za-z0-9]{24,32}` anchored to the end of the string: some
split of `cs` into a non-empty task segment, a hyphen and a session id. -/
def taskSession (cs : List Char) : Bool :=
  (List.range cs.length).any fun i =>
    seg isTaskChar (cs.take i) && (cs.getD i ' ' == '-') &&
      sessionChars (cs.drop (i + 1))

/-- Strip a literal leading sequence, or fail. -/
def dropLit (p cs : List Char) : Option (List Char) :=
  if cs.take p.length = p then some (cs.drop p.length) else none

/-! ## branch-audit.sh: `VALID_PATTERNS` and `check_naming_convention`

Each anchored regex of `VALID_PATTERNS` is translated into a whole-string
matcher on the character list of the branch name. -/

/-- `^main$` -/
def matchMain (cs : List Char) : Bool := cs = "main".data

/-- `^develop$` -/
def matchDevelop (cs : List Char) : Bool := cs = "develop".data

/-- `^feature/[a-z0-9-]+$` -/
def matchFeature (cs : List Char) : Bool :=
  match dropLit "feature/".data cs with
  | some r => seg isTaskChar r
  | none => false

/-- `^fix/[a-z0-9-]+$` -/
def matchFix (cs : List Char) : Bool :=
  match dropLit "fix/".data cs with
  | some r => seg isTaskChar r
  | none => false

/-- `^hotfix/[a-z0-9-]+$` -/
def matchHotfix (cs : List Char) : Bool :=
  match dropLit "hotfix/".data cs with
  | some r => seg isTaskChar r
  | none => false

/-- `^claude/[a-z0-9-]+-[A-Za-z0-9]{24,32}$` -/
def matchClaude (cs : List Char) : Bool :=
  match dropLit "claude/".data cs with
  | some r => taskSession r
  | none => false

/-- `^agent/[a-z0-9-]+/[a-z0-9-]+-[A-Za-z0-9]{24,32}$`.  The agent-name
segment cannot contain `/`, so the first `/` after the prefix is the only
possible separator. -/
def matchAgent (cs : List Char) : Bool :=
  match dropLit "agent/".data cs with
  | none => false
  | some r =>
    let s1 := r.takeWhile (fun c => c != '/')
    match r.drop s1.length with
    | '/' :: tl => seg isTaskChar s1 && taskSession tl
    | _ => false

/-- `^release/v[0-9]+\.[0-9]+\.[0-9]+$`.  Digit runs cannot contain `.`,
so the two dots are located deterministically. -/
def matchRelease (cs : List Char) : Bool :=
  match dropLit "release/v".data cs with
  | none => false
  | some r =>
    let a := r.takeWhile (fun c => c != '.')
    match r.drop a.length with
    | '.' :: r2 =>
      let b := r2.takeWhile (fun c => c != '.')
      match r2.drop b.length with
      | '.' :: r3 => seg isDigitChar a && seg isDigitChar b && seg isDigitChar r3
      | _ => false
    | _ => false

/-- The ordered pattern set `VALID_PATTERNS` of branch-audit.sh. -/
def VALID_PATTERNS : List (List Char → Bool) :=
  [matchMain, matchDevelop, matchFeature, matchFix, matchHotfix,
   matchClaude, matchAgent, matchRelease]

/-- `check_naming_convention` of branch-audit.sh: the name is compliant iff
it matches at least one pattern of `VALID_PATTERNS` (the shell loop returns
at the first match; the verdict is the disjunction). -/
def check_naming_convention (name : String) : Bool :=
  VALID_PATTERNS.any (fun p => p name.data)

/-! ## Branch records

One record per inspected ref, carrying the answers that branch-audit.sh and
branch-cleanup.sh obtain from git: `get_branch_age` (whole days since the
last commit) and `is_merged` (ancestor of `develop` or `main`). -/

structure Branch where
  name : String
  ageDays : Nat
  merged : Bool
deriving Repr, DecidableEq

/-! ## branch-audit.sh: the `EXIT_CODE` variable of `collect_branch_data`

`collect_branch_data` starts from `EXIT_CODE=0` and, per branch in order:
a naming violation sets `EXIT_CODE=1` unconditionally; a stale branch
(`age > STALE_DAYS`) sets `EXIT_CODE=2` only when it is still 0.
`main` runs `exit $EXIT_CODE` — but only after `generate_report`, which
under `set -u` dies on any empty category array; `branchAuditExit`
further down is the exit status actually observed. -/

def auditStep (staleDays : Nat) (code : Nat) (b : Branch) : Nat :=
  let c1 := if check_naming_convention b.name then code else 1
  if staleDays < b.ageDays then (if c1 = 0 then 2 else c1) else c1

/-- The value of `EXIT_CODE` after the collection loop. -/
def auditExitCode (staleDays : Nat) (bs : List Branch) : Nat :=
  bs.foldl (auditStep staleDays) 0

/-! ## branch-cleanup.sh: configuration, state and actions

The configuration mirrors the command-line options.  `branchPattern`
abstracts the `grep -E "$BRANCH_PATTERN"` filter of the first two passes
(the default pattern `*` matches every line); `confirm` is the user's
reply to the `confirm_deletion` prompt for a branch (the `--remote`
push/delete of remote refs has no effect on local state, counters or the
action log and is not modelled). -/

structure Config where
  staleDays : Nat
  dryRun : Bool
  autoMode : Bool
  keepMergedDays : Nat
  archiveUnmerged : Bool
  branchPattern : String → Bool
  confirm : String → Bool

/-- `PROTECTED_BRANCHES=("main" "develop" "master")` and `is_protected`. -/
def PROTECTED_BRANCHES : List String := ["main", "develop", "master"]

def is_protected (branch : String) : Bool :=
  PROTECTED_BRANCHES.contains branch

inductive ActionKind
  | archive
  | delete
deriving Repr, DecidableEq

/-- One destructive operation performed (or, in dry-run, reported as
`[DRY-RUN] Would …`) on a branch. -/
structure CleanupAction where
  kind : ActionKind
  branch : String
  forced : Bool
deriving Repr, DecidableEq

/-- Mutable script state: the repository's local branches and tags, the four
counters, and the chronological list of actions. -/
structure St where
  branches : List Branch
  tags : List String
  deletedCount : Nat
  archivedCount : Nat
  skippedCount : Nat
  failedCount : Nat
  actions : List CleanupAction
deriving Repr, DecidableEq

/-- The `tag_name` of `archive_branch`: prefix `archive/` and replace
every slash of the branch name by a hyphen. -/
def tagName (branch : String) : String :=
  String.mk ("archive/".data ++ branch.data.map (fun c => if c = '/' then '-' else c))

/-- The per-branch effect of `archive_branch` with the `set -e` aborts
ignored (see `archive_branch_exec` for the faithful version): in dry-run
only report.  Otherwise `git tag` succeeds iff the tag does not exist yet;
on success the tag is created and `ARCHIVED_COUNT` incremented, on failure
nothing changes. -/
def archive_branch (cfg : Config) (b : Branch) (st : St) : St :=
  if cfg.dryRun then
    { st with actions := st.actions ++ [⟨ActionKind.archive, b.name, false⟩] }
  else if st.tags.contains (tagName b.name) then
    st
  else
    { st with
      tags := tagName b.name :: st.tags,
      archivedCount := st.archivedCount + 1,
      actions := st.actions ++ [⟨ActionKind.archive, b.name, false⟩] }

/-- `confirm_deletion`: auto mode approves silently, otherwise the user's
reply decides. -/
def confirm_deletion (cfg : Config) (b : Branch) : Bool :=
  if cfg.autoMode then true else cfg.confirm b.name

/-- The per-branch effect of `delete_branch` with the `set -e` aborts
ignored (see `delete_branch_exec` for the faithful version): in dry-run,
report and increment `DELETED_COUNT`.  Otherwise `git branch -D` removes
an existing branch, while a plain `git branch -d` succeeds exactly when
the branch is merged; a failed delete increments `FAILED_COUNT`. -/
def delete_branch (cfg : Config) (b : Branch) (force : Bool) (st : St) : St :=
  if cfg.dryRun then
    { st with
      deletedCount := st.deletedCount + 1,
      actions := st.actions ++ [⟨ActionKind.delete, b.name, force⟩] }
  else if force then
    { st with
      branches := st.branches.filter (fun x => x.name != b.name),
      deletedCount := st.deletedCount + 1,
      actions := st.actions ++ [⟨ActionKind.delete, b.name, force⟩] }
  else if b.merged then
    { st with
      branches := st.branches.filter (fun x => x.name != b.name),
      deletedCount := st.deletedCount + 1,
      actions := st.actions ++ [⟨ActionKind.delete, b.name, force⟩] }
  else
    { st with failedCount := st.failedCount + 1 }

/-- Loop body of `cleanup_merged_branches`: skip protected branches; delete
(non-forced) merged branches older than `KEEP_MERGED_DAYS`. -/
def stepMerged (cfg : Config) (st : St) (b : Branch) : St :=
  if is_protected b.name then st
  else if b.merged then
    if cfg.keepMergedDays < b.ageDays then delete_branch cfg b false st else st
  else st

/-- Shared body of the two unmerged-branch passes: archive first when
`--archive-unmerged`, then delete (forced) when `approve` holds, else
count a skip. -/
def archive_then_confirm_delete (cfg : Config) (b : Branch) (approve : Bool) (st : St) : St :=
  let st1 := if cfg.archiveUnmerged then archive_branch cfg b st else st
  if approve then delete_branch cfg b true st1
  else { st1 with skippedCount := st1.skippedCount + 1 }

/-- Loop body of `cleanup_stale_unmerged`: skip protected and merged
branches; a stale one is archived (when requested) and deleted on
confirmation. -/
def stepStale (cfg : Config) (st : St) (b : Branch) : St :=
  if is_protected b.name then st
  else if b.merged then st
  else if cfg.staleDays < b.ageDays then
    archive_then_confirm_delete cfg b (confirm_deletion cfg b) st
  else st

/-- Loop body of `cleanup_orphaned_agent_branches`: an unmerged branch
older than 60 days is archived (when requested) and deleted (forced) in
auto mode or on confirmation; a merged one older than 30 days is deleted
(non-forced) unconditionally. -/
def stepOrphan (cfg : Config) (st : St) (b : Branch) : St :=
  let st1 :=
    if 60 < b.ageDays ∧ b.merged = false then
      archive_then_confirm_delete cfg b (cfg.autoMode || confirm_deletion cfg b) st
    else st
  if 30 < b.ageDays ∧ b.merged = true then delete_branch cfg b false st1 else st1

/-- `^(claude|agent)/`, the `grep -E` filter of the orphaned-agent pass. -/
def agentPrefixed (name : String) : Bool :=
  "claude/".data.isPrefixOf name.data || "agent/".data.isPrefixOf name.data

/-- `cleanup_merged_branches`: snapshot the branch list through the
`--branches` filter, then fold the loop body over it. -/
def cleanup_merged_branches (cfg : Config) (st : St) : St :=
  (st.branches.filter (fun b => cfg.branchPattern b.name)).foldl (stepMerged cfg) st

/-- `cleanup_stale_unmerged`. -/
def cleanup_stale_unmerged (cfg : Config) (st : St) : St :=
  (st.branches.filter (fun b => cfg.branchPattern b.name)).foldl (stepStale cfg) st

/-- `cleanup_orphaned_agent_branches`. -/
def cleanup_orphaned_agent_branches (cfg : Config) (st : St) : St :=
  (st.branches.filter (fun b => agentPrefixed b.name)).foldl (stepOrphan cfg) st

/-- Initial state for a run: the repository's branches and tags, zeroed
counters, empty action log. -/
def initSt (bs : List Branch) (tags : List String) : St :=
  ⟨bs, tags, 0, 0, 0, 0, []⟩

/-- `main` of branch-cleanup.sh with the `set -e` aborts ignored: the three
passes in order, every branch processed.  Every action the real execution
records before `set -e` kills it is also recorded by this
over-approximating run, so a branch on which this run records no action is
untouched by the real one (the protected-branch invariant below).
`runCleanupExec` is the faithful execution. -/
def runCleanup (cfg : Config) (bs : List Branch) (tags : List String) : St :=
  cleanup_orphaned_agent_branches cfg
    (cleanup_stale_unmerged cfg
      (cleanup_merged_branches cfg (initSt bs tags)))

/-- The exit-code logic at the end of `main`, reached only by a run that
`set -e` never killed: 1 when some deletion failed, 2 when nothing was
deleted nor archived, 0 otherwise. -/
def cleanupExitCode (st : St) : Nat :=
  if 0 < st.failedCount then 1
  else if st.deletedCount = 0 ∧ st.archivedCount = 0 then 2
  else 0

/-- `a` is a delete action on branch `n`. -/
def isDel (n : String) (a : CleanupAction) : Bool :=
  a.kind == ActionKind.delete && a.branch == n

/-- `a` is an archive action on branch `n`. -/
def isArch (n : String) (a : CleanupAction) : Bool :=
  a.kind == ActionKind.archive && a.branch == n

/-! ## branch-cleanup.sh under `set -euo pipefail`: the faithful execution

`Except St St` is the outcome of a script fragment: `Except.ok st` — the
fragment completed and execution continues in state `st`; `Except.error st`
— a command failed outside any conditional context, so `set -e` terminated
the whole process (exit status 1) leaving state `st` behind.

`((X++))` evaluates the arithmetic expression `X++`, whose value is the
pre-increment value of `X`, and an arithmetic command's exit status is 1
when that value is 0.  The assignment is performed either way, so the
first increment of a counter from 0 updates the counter and then kills the
script.  A helper's `return 1` kills the script when the helper was called
bare (not as a condition): this is how `archive_branch` is called in both
unmerged passes, while `is_protected`, `is_merged`, `confirm_deletion` and
the `git` probes are only ever used as conditions. -/

/-- `archive_branch` as executed: in dry-run, report and `return 0` (no
increment on this path, so a dry archive never aborts).  Otherwise a
colliding tag warns and ends in `return 1`, killing the script with the
state unchanged; a successful `git tag` records the tag and the action and
then runs `((ARCHIVED_COUNT++))`, which kills the script when the counter
was 0 — after the tag was already created. -/
def archive_branch_exec (cfg : Config) (b : Branch) (st : St) : Except St St :=
  if cfg.dryRun then
    Except.ok { st with actions := st.actions ++ [⟨ActionKind.archive, b.name, false⟩] }
  else if st.tags.contains (tagName b.name) then
    Except.error st
  else if st.archivedCount = 0 then
    Except.error { st with
      tags := tagName b.name :: st.tags,
      archivedCount := st.archivedCount + 1,
      actions := st.actions ++ [⟨ActionKind.archive, b.name, false⟩] }
  else
    Except.ok { st with
      tags := tagName b.name :: st.tags,
      archivedCount := st.archivedCount + 1,
      actions := st.actions ++ [⟨ActionKind.archive, b.name, false⟩] }

/-- `delete_branch` as executed: each dry-run report and each successful
deletion is followed by `((DELETED_COUNT++))`, which kills the script when
the counter was 0; a failed plain delete runs `((FAILED_COUNT++))` and then
`return 1` from a bare call, and one of the two kills the script whatever
the counter's value. -/
def delete_branch_exec (cfg : Config) (b : Branch) (force : Bool) (st : St) : Except St St :=
  if cfg.dryRun then
    if st.deletedCount = 0 then
      Except.error { st with
        deletedCount := st.deletedCount + 1,
        actions := st.actions ++ [⟨ActionKind.delete, b.name, force⟩] }
    else
      Except.ok { st with
        deletedCount := st.deletedCount + 1,
        actions := st.actions ++ [⟨ActionKind.delete, b.name, force⟩] }
  else if force then
    if st.deletedCount = 0 then
      Except.error { st with
        branches := st.branches.filter (fun x => x.name != b.name),
        deletedCount := st.deletedCount + 1,
        actions := st.actions ++ [⟨ActionKind.delete, b.name, force⟩] }
    else
      Except.ok { st with
        branches := st.branches.filter (fun x => x.name != b.name),
        deletedCount := st.deletedCount + 1,
        actions := st.actions ++ [⟨ActionKind.delete, b.name, force⟩] }
  else if b.merged then
    if st.deletedCount = 0 then
      Except.error { st with
        branches := st.branches.filter (fun x => x.name != b.name),
        deletedCount := st.deletedCount + 1,
        actions := st.actions ++ [⟨ActionKind.delete, b.name, force⟩] }
    else
      Except.ok { st with
        branches := st.branches.filter (fun x => x.name != b.name),
        deletedCount := st.deletedCount + 1,
        actions := st.actions ++ [⟨ActionKind.delete, b.name, force⟩] }
  else
    Except.error { st with failedCount := st.failedCount + 1 }

/-- Sequencing under `set -e`: if the first fragment killed the script, the
second never runs. -/
def andThenE (r : Except St St) (f : St → Except St St) : Except St St :=
  match r with
  | Except.error st => Except.error st
  | Except.ok st => f st

/-- The state left behind when the run ends, completed or killed. -/
def execFinal : Except St St → St
  | Except.error st => st
  | Except.ok st => st

/-- The run was killed by `set -e` before reaching the final exit logic. -/
def isAbort : Except St St → Bool
  | Except.error _ => true
  | Except.ok _ => false

/-- The shared body of the two unmerged passes as executed: the bare
`archive_branch` call first (when `--archive-unmerged`), then on approval
the forced delete, else the `((SKIPPED_COUNT++))` — which kills the script
when the skip counter was 0. -/
def archive_then_confirm_delete_exec (cfg : Config) (b : Branch) (approve : Bool)
    (st : St) : Except St St :=
  andThenE (if cfg.archiveUnmerged then archive_branch_exec cfg b st else Except.ok st)
    (fun st1 =>
      if approve then delete_branch_exec cfg b true st1
      else if st1.skippedCount = 0 then
        Except.error { st1 with skippedCount := st1.skippedCount + 1 }
      else Except.ok { st1 with skippedCount := st1.skippedCount + 1 })

/-- Loop body of `cleanup_merged_branches` as executed. -/
def stepMergedExec (cfg : Config) (st : St) (b : Branch) : Except St St :=
  if is_protected b.name then Except.ok st
  else if b.merged then
    if cfg.keepMergedDays < b.ageDays then delete_branch_exec cfg b false st
    else Except.ok st
  else Except.ok st

/-- Loop body of `cleanup_stale_unmerged` as executed. -/
def stepStaleExec (cfg : Config) (st : St) (b : Branch) : Except St St :=
  if is_protected b.name then Except.ok st
  else if b.merged then Except.ok st
  else if cfg.staleDays < b.ageDays then
    archive_then_confirm_delete_exec cfg b (confirm_deletion cfg b) st
  else Except.ok st

/-- Loop body of `cleanup_orphaned_agent_branches` as executed. -/
def stepOrphanExec (cfg : Config) (st : St) (b : Branch) : Except St St :=
  andThenE (if 60 < b.ageDays ∧ b.merged = false then
      archive_then_confirm_delete_exec cfg b (cfg.autoMode || confirm_deletion cfg b) st
    else Except.ok st)
    (fun st1 =>
      if 30 < b.ageDays ∧ b.merged = true then delete_branch_exec cfg b false st1
      else Except.ok st1)

/-- A branch loop, stopped at the first command that kills the script. -/
def foldE (step : St → Branch → Except St St) : List Branch → St → Except St St
  | [], st => Except.ok st
  | b :: rest, st => andThenE (step st b) (foldE step rest)

/-- `cleanup_merged_branches` as executed. -/
def cleanup_merged_branches_exec (cfg : Config) (st : St) : Except St St :=
  foldE (stepMergedExec cfg) (st.branches.filter (fun b => cfg.branchPattern b.name)) st

/-- `cleanup_stale_unmerged` as executed. -/
def cleanup_stale_unmerged_exec (cfg : Config) (st : St) : Except St St :=
  foldE (stepStaleExec cfg) (st.branches.filter (fun b => cfg.branchPattern b.name)) st

/-- `cleanup_orphaned_agent_branches` as executed. -/
def cleanup_orphaned_agent_branches_exec (cfg : Config) (st : St) : Except St St :=
  foldE (stepOrphanExec cfg) (st.branches.filter (fun b => agentPrefixed b.name)) st

/-- `main` of branch-cleanup.sh as executed: the three passes in order,
stopped at the first kill. -/
def runCleanupExec (cfg : Config) (bs : List Branch) (tags : List String) : Except St St :=
  andThenE (cleanup_merged_branches_exec cfg (initSt bs tags)) (fun st1 =>
    andThenE (cleanup_stale_unmerged_exec cfg st1) (fun st2 =>
      cleanup_orphaned_agent_branches_exec cfg st2))

/-- The process's exit status: 1 when `set -e` killed the script, otherwise
the exit-code logic at the end of `main`. -/
def cleanupExecExit (r : Except St St) : Nat :=
  match r with
  | Except.error _ => 1
  | Except.ok st => cleanupExitCode st

/-- The loop body of `cleanup_merged_branches` calls `delete_branch` for
`b` exactly when this holds: `b` unprotected, merged and older than
`KEEP_MERGED_DAYS`. -/
def mergedCandidate (cfg : Config) (b : Branch) : Bool :=
  !is_protected b.name && b.merged && decide (cfg.keepMergedDays < b.ageDays)

/-! ## branch-audit.sh under `set -u`: the observed exit status -/

/-- Exit status of branch-audit.sh's `main` as executed.  The four category
arrays are created by `declare -g -a` with no assignment and stay unset
until something is appended; under `set -u`, expanding the length of an
unset array is a fatal error (exit status 1), and the summary block of
`generate_report` reads all four lengths unconditionally (`all_branches`
is always set: `mapfile` assigns it even when its input is empty, and
iterating an empty or unset array is harmless).  So the report completes —
and `exit $EXIT_CODE` is reached — only when every category is non-empty;
any empty category kills the script with status 1. -/
def branchAuditExit (staleDays : Nat) (bs : List Branch) : Nat :=
  if bs.any (fun b => !check_naming_convention b.name)
      && bs.any (fun b => b.merged && decide (staleDays < b.ageDays))
      && bs.any (fun b => !b.merged && decide (staleDays < b.ageDays))
      && bs.any (fun b => agentPrefixed b.name && decide (60 < b.ageDays) && !b.merged)
  then auditExitCode staleDays bs
  else 1

/-! ## prepare-agent-branch.sh: the Branch Provisioner

`validate_session_id`, `sanitize_task_name`, `construct_branch_name` and
the `main` pipeline.  Git is again modelled at its boundary: `refExists`
answers `git rev-parse --verify`, `remoteHasBranch` answers
`git ls-remote --heads origin`, `localSha`/`remoteSha` give the commit
hashes compared by `update_base_branch` (empty string when the ref cannot
be resolved), and `fetchOk`/`pullOk`/`checkoutOk`/`createOk` are the
success of the corresponding git invocations. -/

/-- `SESSION_ID_PATTERN`, anchored: 24–32 alphanumeric characters. -/
def sessionIdMatches (s : String) : Bool :=
  s.data.all isAlnumChar &&
  decide (24 ≤ s.data.length) && decide (s.data.length ≤ 32)

/-- `TASK_NAME_PATTERN`, anchored: 3–50 characters of `[a-z0-9-]`. -/
def taskNameMatches (cs : List Char) : Bool :=
  cs.all isTaskChar && decide (3 ≤ cs.length) && decide (cs.length ≤ 50)

/-- ASCII lowercasing of the bash `${task,,}` expansion. -/
def toLowerAscii (c : Char) : Char :=
  if decide (65 ≤ c.toNat) && decide (c.toNat ≤ 90) then Char.ofNat (c.toNat + 32)
  else c

/-- The `sed` command replacing every run of hyphens by one hyphen. -/
def collapseHyphens : List Char → List Char
  | [] => []
  | [c] => [c]
  | c1 :: c2 :: rest =>
    if c1 = '-' && c2 = '-' then collapseHyphens (c2 :: rest)
    else c1 :: collapseHyphens (c2 :: rest)

/-- The transformation chain of `sanitize_task_name`: lowercase, spaces and
underscores to hyphens, drop characters outside `[a-z0-9-]`, collapse
hyphen runs, trim leading and trailing hyphens, truncate to 50. -/
def sanitizeSteps (cs : List Char) : List Char :=
  let t1 := cs.map toLowerAscii
  let t2 := t1.map (fun c => if c == ' ' then '-' else c)
  let t3 := t2.map (fun c => if c == '_' then '-' else c)
  let t4 := t3.filter isTaskChar
  let t5 := collapseHyphens t4
  let t6 := t5.dropWhile (fun c => c == '-')
  let t7 := (t6.reverse.dropWhile (fun c => c == '-')).reverse
  t7.take 50

/-- `sanitize_task_name`: apply the chain, then re-validate against
`TASK_NAME_PATTERN`; `none` is the `error … 1` exit. -/
def sanitize_task_name (task : String) : Option String :=
  let r := sanitizeSteps task.data
  if taskNameMatches r then some (String.mk r) else none

/-- `construct_branch_name`. -/
def construct_branch_name (task session agent : String) : String :=
  if agent == "claude" then "claude/" ++ task ++ "-" ++ session
  else "agent/" ++ agent ++ "/" ++ task ++ "-" ++ session

/-- Answers of the external git repository and remote, as consumed by
prepare-agent-branch.sh. -/
structure GitEnv where
  refExists : String → Bool
  remoteHasBranch : String → Bool
  fetchOk : Bool
  localSha : String → String
  remoteSha : String → String
  pullOk : Bool
  checkoutOk : Bool
  createOk : Bool

/-- Ref operations performed by a provisioning run, in order. -/
inductive PrepEvent
  | fetched (base : String)
  | checkedOut (base : String)
  | pulled (base : String)
  | created (branch : String)
  | upstreamSet (branch : String)
  | metaSet (branch : String)
deriving Repr, DecidableEq

structure PrepResult where
  exitCode : Nat
  branch : Option String
  events : List PrepEvent
deriving Repr, DecidableEq

/-- `main` of prepare-agent-branch.sh: validate the session id (exit 1),
sanitize the task (exit 1), construct the name, check the base exists
(exit 1), check the branch does not exist locally or remotely (exit 2),
synchronize the base (`git fetch`, and `git checkout` + `git pull` when the
local and remote hashes both resolve and differ; failures exit 3), then
check out the base and create the branch (failures exit 3), set upstream
tracking when the remote already has the branch (best-effort), attach the
branch description, and exit 0 printing the branch name. -/
def prepare_agent_branch (env : GitEnv) (task sid base agent : String) : PrepResult :=
  if !sessionIdMatches sid then ⟨1, none, []⟩
  else
    match sanitize_task_name task with
    | none => ⟨1, none, []⟩
    | some tname =>
      let bname := construct_branch_name tname sid agent
      if !env.refExists base then ⟨1, none, []⟩
      else if env.refExists bname then ⟨2, none, []⟩
      else if env.remoteHasBranch bname then ⟨2, none, []⟩
      else if !env.fetchOk then ⟨3, none, []⟩
      else
        let lsha := env.localSha base
        let rsha := env.remoteSha base
        let upd : Option (List PrepEvent) :=
          if lsha ≠ "" ∧ rsha ≠ "" ∧ lsha ≠ rsha then
            if env.pullOk then
              some [PrepEvent.fetched base, PrepEvent.checkedOut base, PrepEvent.pulled base]
            else none
          else some [PrepEvent.fetched base]
        match upd with
        | none => ⟨3, none, [PrepEvent.fetched base]⟩
        | some ev1 =>
          if !env.checkoutOk then ⟨3, none, ev1⟩
          else if !env.createOk then ⟨3, none, ev1 ++ [PrepEvent.checkedOut base]⟩
          else
            let ev2 := ev1 ++ [PrepEvent.checkedOut base, PrepEvent.created bname]
            let ev3 := ev2 ++
              (if env.remoteHasBranch bname then [PrepEvent.upstreamSet bname] else []) ++
              [PrepEvent.metaSet bname]
            ⟨0, some bname, ev3⟩

/-! ## agent-logger.js and supabase-client.js: logging wrappers

The database client and the log-shipping sink are external; their outcome
for one call is an explicit input.  An awaited insert either resolves with
no error, resolves with an error result, or rejects (a thrown exception).
A wrapper's run is modelled as the pair of the value handed to the caller
(`Except.error` = an exception propagating out of the wrapper) and the
console messages it emits. -/

inductive DbOutcome
  | ok
  | errResult (msg : String)
  | thrown (msg : String)
deriving Repr, DecidableEq

inductive SinkOutcome
  | ok
  | rejected (msg : String)
deriving Repr, DecidableEq

/-- `await supabase.from(t).insert(r)…`: resolves with `none` (no error),
resolves with `some msg` (an error result), or rejects. -/
def awaitInsert : DbOutcome → Except String (Option String)
  | DbOutcome.ok => Except.ok none
  | DbOutcome.errResult m => Except.ok (some m)
  | DbOutcome.thrown m => Except.error m

/-- `logAgentMessage` of agent-logger.js: generate the ids, then inside
`try`: insert and warn on an error result; the `catch` turns a thrown
exception into a warning.  Every path returns the generated ids. -/
def logAgentMessage (messageId conversationId : String) (db : DbOutcome) :
    Except String (String × String) × List String :=
  match awaitInsert db with
  | Except.error m =>
    (Except.ok (messageId, conversationId), ["Agent Logger error: " ++ m])
  | Except.ok (some m) =>
    (Except.ok (messageId, conversationId), ["Agent Logger warning: " ++ m])
  | Except.ok none =>
    (Except.ok (messageId, conversationId), [])

/-- `logAgentCommunication` of supabase-client.js: no `try`/`catch`.  An
error result logs `console.error` and returns `null`; otherwise the Loki
shipment is awaited with `.catch` (a rejection becomes a warning) and the
inserted row is returned.  A thrown exception from the awaited insert
propagates to the caller. -/
def logAgentCommunication (messageId : String) (db : DbOutcome) (loki : SinkOutcome) :
    Except String (Option String) × List String :=
  match awaitInsert db with
  | Except.error m => (Except.error m, [])
  | Except.ok (some m) =>
    (Except.ok none, ["Error logging communication: " ++ m])
  | Except.ok none =>
    match loki with
    | SinkOutcome.ok => (Except.ok (some messageId), [])
    | SinkOutcome.rejected m =>
      (Except.ok (some messageId), ["Loki warning: " ++ m])

/-! ## Derived observations on cleanup runs -/

/-- `a` is a delete action (on any branch). -/
def isDelKind (a : CleanupAction) : Bool := a.kind == ActionKind.delete

/-- In an action sequence, every delete action on branch `n` is preceded by
an (earlier) archive action on `n`: scanning chronologically, the first
action touching `n` is not a delete. -/
def delsCovered (n : String) : List CleanupAction → Bool
  | [] => true
  | a :: rest =>
    if isArch n a then true
    else if isDel n a then false
    else delsCovered n rest

/-! ## Concrete scenario inputs -/

/-- Cleanup with `--dry-run` and every other option at its default. -/
def cfgDryDefault : Config := ⟨30, true, false, 7, false, fun _ => true, fun _ => false⟩

/-- Cleanup with `--auto --archive-unmerged` and defaults otherwise. -/
def cfgAutoArchive : Config := ⟨30, false, true, 7, true, fun _ => true, fun _ => true⟩

/-- Cleanup with `--dry-run --auto --archive-unmerged`. -/
def cfgDryAutoArchive : Config := ⟨30, true, true, 7, true, fun _ => true, fun _ => true⟩

/-- A repository whose only resolvable ref is `main`, with nothing on the
remote and all git operations succeeding. -/
def envMainOnly : GitEnv :=
  ⟨fun r => r == "main", fun _ => false, true, fun _ => "sha0", fun _ => "sha0",
   true, true, true⟩

/-- Every still-existing branch named `n` is unmerged. -/
def UnmergedNamed (n : String) (st : St) : Prop :=
  ∀ b ∈ st.branches, b.name = n → b.merged = false

/-- Invariant of the archive-before-delete analysis: in the actions so far,
every delete on branch `n` is preceded by an archive on `n`, and every
still-existing branch named `n` is unmerged. -/
def CoveredInv (n : String) (st : St) : Prop :=
  delsCovered n st.actions = true ∧ UnmergedNamed n st

/-! # Theorems -/

/-! ## Generic helpers -/

lemma foldl_preserve {σ α : Type} (Inv : σ → Prop) (p : α → Prop) {step : σ → α → σ}
    (hstep : ∀ s a, Inv s → p a → Inv (step s a)) :
    ∀ (l : List α) (s : σ), Inv s → (∀ a ∈ l, p a) → Inv (l.foldl step s) := by
  intro l
  induction l with
  | nil => intro s hs _; exact hs
  | cons a l ih =>
    intro s hs hp
    exact ih (step s a) (hstep s a hs (hp a (by simp)))
      (fun x hx => hp x (by simp [hx]))

/-! ## The audit exit code (C2) -/

lemma auditFold_from_one (d : Nat) : ∀ l : List Branch, l.foldl (auditStep d) 1 = 1 := by
  intro l
  induction l with
  | nil => rfl
  | cons b l ih =>
    have h : auditStep d 1 b = 1 := by
      unfold auditStep
      by_cases hc : check_naming_convention b.name <;>
        by_cases hs : d < b.ageDays <;> simp [hc, hs]
    simp [List.foldl_cons, h, ih]

lemma auditFold_from_two (d : Nat) : ∀ l : List Branch,
    l.foldl (auditStep d) 2 =
      if l.any (fun b => !check_naming_convention b.name) then 1 else 2 := by
  intro l
  induction l with
  | nil => rfl
  | cons b l ih =>
    by_cases hc : check_naming_convention b.name
    · have h : auditStep d 2 b = 2 := by
        unfold auditStep
        by_cases hs : d < b.ageDays <;> simp [hc, hs]
      simp [List.foldl_cons, h, ih, hc]
    · have h : auditStep d 2 b = 1 := by
        unfold auditStep
        by_cases hs : d < b.ageDays <;> simp [hc, hs]
      simp [List.foldl_cons, h, auditFold_from_one, hc]

lemma auditFold_from_zero (d : Nat) : ∀ l : List Branch,
    l.foldl (auditStep d) 0 =
      if l.any (fun b => !check_naming_convention b.name) then 1
      else if l.any (fun b => decide (d < b.ageDays)) then 2
      else 0 := by
  intro l
  induction l with
  | nil => rfl
  | cons b l ih =>
    by_cases hc : check_naming_convention b.name <;> by_cases hs : d < b.ageDays
    · have h : auditStep d 0 b = 2 := by unfold auditStep; simp [hc, hs]
      simp [List.foldl_cons, h, auditFold_from_two, hc, hs]
    · have h : auditStep d 0 b = 0 := by unfold auditStep; simp [hc, hs]
      simp [List.foldl_cons, h, ih, hc, hs]
    · have h : auditStep d 0 b = 1 := by unfold auditStep; simp [hc, hs]
      simp [List.foldl_cons, h, auditFold_from_one, hc]
    · have h : auditStep d 0 b = 1 := by unfold auditStep; simp [hc, hs]
      simp [List.foldl_cons, h, auditFold_from_one, hc]

/-- The `EXIT_CODE` variable after the collection loop: 0 when there is no
naming violation and no stale branch; 1 as soon as at least one naming
violation exists, whatever the processing order and whether stale branches
also exist; 2 when a stale branch exists and there is no violation. -/
lemma collect_exit_code_cases (d : Nat) (bs : List Branch) :
    auditExitCode d bs =
      if bs.any (fun b => !check_naming_convention b.name) then 1
      else if bs.any (fun b => decide (d < b.ageDays)) then 2
      else 0 :=
  auditFold_from_zero d bs

/-- C2 (code bug): the `EXIT_CODE` computed by `collect_branch_data` does
follow the claimed 0 / 1 / 2 discipline, but `main` never reports it
faithfully.  `generate_report` reads the length of each of the four
category arrays, and under `set -u` an empty category is an unset array
whose length expansion kills the script with status 1 before
`exit $EXIT_CODE` runs.  A report that does print requires all four
categories non-empty, hence a naming violation, hence `EXIT_CODE = 1`.
So the audit exits 1 on every input: in particular a clean repository
(intended exit 0) exits 1, and a stale-only repository (intended exit 2)
exits 1. -/
theorem audit_always_exits_one :
    (∀ (d : Nat) (bs : List Branch), branchAuditExit d bs = 1) ∧
    (∀ (d : Nat) (bs : List Branch),
      auditExitCode d bs =
        if bs.any (fun b => !check_naming_convention b.name) then 1
        else if bs.any (fun b => decide (d < b.ageDays)) then 2
        else 0) ∧
    auditExitCode 30 [⟨"feature/ok", 4, true⟩] = 0 ∧
    branchAuditExit 30 [⟨"feature/ok", 4, true⟩] = 1 ∧
    auditExitCode 30 [⟨"feature/old", 40, true⟩] = 2 ∧
    branchAuditExit 30 [⟨"feature/old", 40, true⟩] = 1 := by
  refine ⟨?_, collect_exit_code_cases, by decide, by decide, by decide, by decide⟩
  intro d bs
  unfold branchAuditExit
  split
  next hcond =>
    rw [collect_exit_code_cases]
    simp only [Bool.and_eq_true] at hcond
    rw [hcond.1.1.1]
    rfl
  next => rfl

/-- C6: the Naming Classifier answers `compliant` exactly when the name
matches some pattern of the policy pattern set, and classifies the
documented valid examples as compliant and the documented invalid examples
as non-compliant. -/
theorem naming_classifier_examples :
    (∀ name : String, check_naming_convention name = VALID_PATTERNS.any (fun p => p name.data)) ∧
    check_naming_convention "feature/add-user-auth" = true ∧
    check_naming_convention "claude/setup-ci-01K6xLndeu5hU8pH3L6aWxn8" = true ∧
    check_naming_convention "release/v1.2.0" = true ∧
    check_naming_convention "Feature/AddUserAuth" = false ∧
    check_naming_convention "fix_null_pointer" = false ∧
    check_naming_convention "claude/setup-ci" = false :=
  ⟨fun _ => rfl, by decide, by decide, by decide, by decide, by decide, by decide⟩

/-! ## The ProtectedSet invariant (C1) -/

lemma archive_branch_mem (cfg : Config) (b : Branch) (st : St) :
    ∀ a ∈ (archive_branch cfg b st).actions, a ∈ st.actions ∨ a.branch = b.name := by
  intro a ha
  unfold archive_branch at ha
  split at ha
  · simp at ha
    rcases ha with ha | ha
    · exact Or.inl ha
    · exact Or.inr (by simp [ha])
  · split at ha
    · exact Or.inl ha
    · simp at ha
      rcases ha with ha | ha
      · exact Or.inl ha
      · exact Or.inr (by simp [ha])

lemma delete_branch_mem (cfg : Config) (b : Branch) (force : Bool) (st : St) :
    ∀ a ∈ (delete_branch cfg b force st).actions, a ∈ st.actions ∨ a.branch = b.name := by
  intro a ha
  unfold delete_branch at ha
  split at ha
  · simp at ha
    rcases ha with ha | ha
    · exact Or.inl ha
    · exact Or.inr (by simp [ha])
  · split at ha
    · simp at ha
      rcases ha with ha | ha
      · exact Or.inl ha
      · exact Or.inr (by simp [ha])
    · split at ha
      · simp at ha
        rcases ha with ha | ha
        · exact Or.inl ha
        · exact Or.inr (by simp [ha])
      · exact Or.inl ha

lemma acd_mem (cfg : Config) (b : Branch) (approve : Bool) (st : St) :
    ∀ a ∈ (archive_then_confirm_delete cfg b approve st).actions,
      a ∈ st.actions ∨ a.branch = b.name := by
  intro a ha
  simp only [archive_then_confirm_delete] at ha
  have hst1 : ∀ x ∈ (if cfg.archiveUnmerged = true then archive_branch cfg b st else st).actions,
      x ∈ st.actions ∨ x.branch = b.name := by
    split
    · exact archive_branch_mem cfg b st
    · exact fun x hx => Or.inl hx
  split at ha
  · rcases delete_branch_mem cfg b true _ a ha with h | h
    · exact hst1 a h
    · exact Or.inr h
  · exact hst1 a ha

lemma stepMerged_unprot (cfg : Config) (st : St) (b : Branch)
    (h : ∀ a ∈ st.actions, is_protected a.branch = false) :
    ∀ a ∈ (stepMerged cfg st b).actions, is_protected a.branch = false := by
  intro a ha
  unfold stepMerged at ha
  split at ha
  · exact h a ha
  next hprot =>
    split at ha
    · split at ha
      · rcases delete_branch_mem cfg b false st a ha with hm | hm
        · exact h a hm
        · rw [hm]; exact Bool.not_eq_true _ ▸ (by simpa using hprot)
      · exact h a ha
    · exact h a ha

lemma stepStale_unprot (cfg : Config) (st : St) (b : Branch)
    (h : ∀ a ∈ st.actions, is_protected a.branch = false) :
    ∀ a ∈ (stepStale cfg st b).actions, is_protected a.branch = false := by
  intro a ha
  unfold stepStale at ha
  split at ha
  · exact h a ha
  next hprot =>
    split at ha
    · exact h a ha
    · split at ha
      · rcases acd_mem cfg b _ st a ha with hm | hm
        · exact h a hm
        · rw [hm]; simpa using hprot
      · exact h a ha

lemma stepOrphan_mem (cfg : Config) (st : St) (b : Branch) :
    ∀ a ∈ (stepOrphan cfg st b).actions, a ∈ st.actions ∨ a.branch = b.name := by
  intro a ha
  simp only [stepOrphan] at ha
  have hst1 : ∀ x ∈ (if 60 < b.ageDays ∧ b.merged = false then
      archive_then_confirm_delete cfg b (cfg.autoMode || confirm_deletion cfg b) st
      else st).actions, x ∈ st.actions ∨ x.branch = b.name := by
    split
    · exact acd_mem cfg b _ st
    · exact fun x hx => Or.inl hx
  split at ha
  · rcases delete_branch_mem cfg b false _ a ha with h | h
    · exact hst1 a h
    · exact Or.inr h
  · exact hst1 a ha

lemma agentPrefixed_not_protected (n : String) (h : agentPrefixed n = true) :
    is_protected n = false := by
  by_contra hc
  rw [Bool.not_eq_false] at hc
  have hmem : n = "main" ∨ n = "develop" ∨ n = "master" := by
    simpa [is_protected, PROTECTED_BRANCHES] using hc
  rcases hmem with hn | hn | hn <;> subst hn <;> exact absurd h (by decide)

lemma stepOrphan_unprot (cfg : Config) (st : St) (b : Branch)
    (hb : agentPrefixed b.name = true)
    (h : ∀ a ∈ st.actions, is_protected a.branch = false) :
    ∀ a ∈ (stepOrphan cfg st b).actions, is_protected a.branch = false := by
  intro a ha
  rcases stepOrphan_mem cfg st b a ha with hm | hm
  · exact h a hm
  · rw [hm]; exact agentPrefixed_not_protected b.name hb

lemma runCleanup_unprot (cfg : Config) (bs : List Branch) (tags : List String) :
    ∀ a ∈ (runCleanup cfg bs tags).actions, is_protected a.branch = false := by
  unfold runCleanup
  have h0 : ∀ a ∈ (initSt bs tags).actions, is_protected a.branch = false := by
    intro a ha; simp [initSt] at ha
  have h1 := foldl_preserve
    (fun st => ∀ a ∈ st.actions, is_protected a.branch = false)
    (fun _ : Branch => True)
    (fun s b hs _ => stepMerged_unprot cfg s b hs)
    ((initSt bs tags).branches.filter (fun b => cfg.branchPattern b.name))
    (initSt bs tags) h0 (fun _ _ => trivial)
  have h2 := foldl_preserve
    (fun st => ∀ a ∈ st.actions, is_protected a.branch = false)
    (fun _ : Branch => True)
    (fun s b hs _ => stepStale_unprot cfg s b hs)
    ((cleanup_merged_branches cfg (initSt bs tags)).branches.filter
      (fun b => cfg.branchPattern b.name))
    (cleanup_merged_branches cfg (initSt bs tags)) (by exact h1) (fun _ _ => trivial)
  exact foldl_preserve
    (fun st => ∀ a ∈ st.actions, is_protected a.branch = false)
    (fun b : Branch => agentPrefixed b.name = true)
    (fun s b hs hb => stepOrphan_unprot cfg s b hb hs)
    _ _ (by exact h2) (fun b hb => (List.mem_filter.mp hb).2)

/-- C1: a cleanup run never performs nor reports a delete or archive action
on a branch whose name is in the ProtectedSet `{main, develop, master}`,
whatever the branch list, tag list and options. -/
theorem protected_branches_untouched (cfg : Config) (bs : List Branch)
    (tags : List String) (name : String) (h : is_protected name = true) :
    (runCleanup cfg bs tags).actions.countP (fun a => a.branch == name) = 0 := by
  rw [List.countP_eq_zero]
  intro a ha hbeq
  have hfalse := runCleanup_unprot cfg bs tags a ha
  have : a.branch = name := by simpa using hbeq
  rw [this, h] at hfalse
  exact Bool.true_eq_false.mp hfalse

/-- Witness for C1: a concrete run (auto mode, archiving enabled, one old
merged branch) performs no action on `main`. -/
theorem protected_branches_untouched_witness :
    (runCleanup cfgAutoArchive [⟨"feature/x", 40, true⟩] []).actions.countP
      (fun a => a.branch == "main") = 0 :=
  protected_branches_untouched cfgAutoArchive [⟨"feature/x", 40, true⟩] [] "main" (by decide)

/-! ## The aborting execution: basic equations -/

lemma andThenE_error {st : St} {f : St → Except St St} :
    andThenE (Except.error st) f = Except.error st := rfl

lemma andThenE_ok {st : St} {f : St → Except St St} :
    andThenE (Except.ok st) f = f st := rfl

lemma execFinal_error {st : St} : execFinal (Except.error st) = st := rfl

lemma execFinal_ok {st : St} : execFinal (Except.ok st) = st := rfl

lemma foldE_nil {step : St → Branch → Except St St} {st : St} :
    foldE step [] st = Except.ok st := rfl

lemma foldE_cons {step : St → Branch → Except St St} {b : Branch} {l : List Branch}
    {st : St} : foldE step (b :: l) st = andThenE (step st b) (foldE step l) := rfl

/-- A prefix of branches on which the loop body is a no-op can be dropped. -/
lemma foldE_skip_prefix {step : St → Branch → Except St St} :
    ∀ l1 : List Branch, (∀ (st' : St) (x : Branch), x ∈ l1 → step st' x = Except.ok st') →
    ∀ (l2 : List Branch) (st : St), foldE step (l1 ++ l2) st = foldE step l2 st := by
  intro l1
  induction l1 with
  | nil => intro _ l2 st; rfl
  | cons a l ih =>
    intro h l2 st
    rw [List.cons_append, foldE_cons, h st a (by simp), andThenE_ok]
    exact ih (fun st' x hx => h st' x (by simp [hx])) l2 st

/-- If from `st0` every loop step either kills the script or returns `st0`
unchanged, a completed loop ends at `st0`. -/
lemma foldE_ok_fixed {step : St → Branch → Except St St} {st0 : St}
    (hstep : ∀ (b : Branch) (s : St), step st0 b = Except.ok s → s = st0) :
    ∀ (l : List Branch) (st' : St), foldE step l st0 = Except.ok st' → st' = st0 := by
  intro l
  induction l with
  | nil =>
    intro st' h
    rw [foldE_nil] at h
    injection h with h
    exact h.symm
  | cons b l ih =>
    intro st' h
    rw [foldE_cons] at h
    cases hm : step st0 b with
    | error s => rw [hm, andThenE_error] at h; exact Except.noConfusion h
    | ok s =>
      rw [hm, andThenE_ok] at h
      rw [hstep b s hm] at h
      exact ih st' h

/-- A state predicate preserved by each loop step — into the continuation
state as well as into the state a kill leaves behind — holds at the final
state of the loop, completed or killed. -/
lemma foldE_preserveE (P : St → Prop) (Q : Branch → Prop)
    {step : St → Branch → Except St St}
    (hstep : ∀ (st : St) (b : Branch), P st → Q b → P (execFinal (step st b))) :
    ∀ (l : List Branch) (st : St), P st → (∀ b ∈ l, Q b) →
      P (execFinal (foldE step l st)) := by
  intro l
  induction l with
  | nil => intro st hP _; exact hP
  | cons b l ih =>
    intro st hP hQ
    rw [foldE_cons]
    cases hm : step st b with
    | error s =>
      rw [andThenE_error]
      have hs := hstep st b hP (hQ b (by simp))
      rwa [hm] at hs
    | ok s =>
      rw [andThenE_ok]
      have hs : P s := by
        have h1 := hstep st b hP (hQ b (by simp))
        rwa [hm, execFinal_ok] at h1
      exact ih s hs (fun x hx => hQ x (by simp [hx]))

/-! ## The aborting execution: per-helper facts -/

/-- With `DELETED_COUNT = 0`, `delete_branch` never returns: every path
kills the script (the first report's increment, or the failure path). -/
lemma delete_branch_exec_no_ok {cfg : Config} {b : Branch} {force : Bool} {st : St}
    (hd : st.deletedCount = 0) :
    ∀ s : St, delete_branch_exec cfg b force st ≠ Except.ok s := by
  intro s hc
  unfold delete_branch_exec at hc
  split at hc
  · rw [hd] at hc
    simp at hc
  · split at hc
    · rw [hd] at hc
      simp at hc
    · split at hc
      · rw [hd] at hc
        simp at hc
      · exact Except.noConfusion hc

/-- A successful `archive_branch` call appends exactly its archive action
and touches neither the branch list nor the other counters. -/
lemma archive_branch_exec_ok_shape {cfg : Config} {b : Branch} {st st1 : St}
    (h : archive_branch_exec cfg b st = Except.ok st1) :
    st1.actions = st.actions ++ [⟨ActionKind.archive, b.name, false⟩] ∧
    st1.branches = st.branches ∧
    st1.deletedCount = st.deletedCount ∧ st1.skippedCount = st.skippedCount := by
  unfold archive_branch_exec at h
  split at h
  · injection h with h
    subst h
    exact ⟨rfl, rfl, rfl, rfl⟩
  · split at h
    · exact Except.noConfusion h
    · split at h
      · exact Except.noConfusion h
      · injection h with h
        subst h
        exact ⟨rfl, rfl, rfl, rfl⟩

/-- Whatever `archive_branch` does, the state it leaves behind (returned or
killed) has either its archive action appended or the actions unchanged,
and the branch list unchanged. -/
lemma archive_branch_exec_shape (cfg : Config) (b : Branch) (st : St) :
    ((execFinal (archive_branch_exec cfg b st)).actions
        = st.actions ++ [⟨ActionKind.archive, b.name, false⟩] ∨
      (execFinal (archive_branch_exec cfg b st)).actions = st.actions) ∧
    (execFinal (archive_branch_exec cfg b st)).branches = st.branches := by
  unfold archive_branch_exec
  split
  · exact ⟨Or.inl rfl, rfl⟩
  · split
    · exact ⟨Or.inr rfl, rfl⟩
    · split
      · exact ⟨Or.inl rfl, rfl⟩
      · exact ⟨Or.inl rfl, rfl⟩

/-- Whatever `delete_branch` does, the state it leaves behind has either
its delete action appended or the actions unchanged, and its branches are
a subset of the previous ones. -/
lemma delete_branch_exec_shape (cfg : Config) (b : Branch) (force : Bool) (st : St) :
    ((execFinal (delete_branch_exec cfg b force st)).actions
        = st.actions ++ [⟨ActionKind.delete, b.name, force⟩] ∨
      (execFinal (delete_branch_exec cfg b force st)).actions = st.actions) ∧
    ∀ x ∈ (execFinal (delete_branch_exec cfg b force st)).branches, x ∈ st.branches := by
  unfold delete_branch_exec
  split
  · split
    · exact ⟨Or.inl rfl, fun x hx => hx⟩
    · exact ⟨Or.inl rfl, fun x hx => hx⟩
  · split
    · split
      · exact ⟨Or.inl rfl, fun x hx => (List.mem_filter.mp hx).1⟩
      · exact ⟨Or.inl rfl, fun x hx => (List.mem_filter.mp hx).1⟩
    · split
      · split
        · exact ⟨Or.inl rfl, fun x hx => (List.mem_filter.mp hx).1⟩
        · exact ⟨Or.inl rfl, fun x hx => (List.mem_filter.mp hx).1⟩
      · exact ⟨Or.inr rfl, fun x hx => hx⟩

/-- A forced `delete_branch` always appends its delete action to the state
it leaves behind, returned or killed. -/
lemma delete_branch_exec_true_shape (cfg : Config) (b : Branch) (st : St) :
    (execFinal (delete_branch_exec cfg b true st)).actions
        = st.actions ++ [⟨ActionKind.delete, b.name, true⟩] ∧
    ∀ x ∈ (execFinal (delete_branch_exec cfg b true st)).branches, x ∈ st.branches := by
  unfold delete_branch_exec
  split
  · split
    · exact ⟨rfl, fun x hx => hx⟩
    · exact ⟨rfl, fun x hx => hx⟩
  · split
    · split
      · exact ⟨rfl, fun x hx => (List.mem_filter.mp hx).1⟩
      · exact ⟨rfl, fun x hx => (List.mem_filter.mp hx).1⟩
    · next hf => exact absurd rfl hf

/-- With `DELETED_COUNT = 0` and `SKIPPED_COUNT = 0`, the shared
archive-then-delete body never returns: whether or not it archives first,
both the delete and the skip continuation kill the script. -/
lemma acd_exec_no_ok {cfg : Config} {b : Branch} {approve : Bool} {st : St}
    (hd : st.deletedCount = 0) (hs : st.skippedCount = 0) :
    ∀ s : St, archive_then_confirm_delete_exec cfg b approve st ≠ Except.ok s := by
  intro s hc
  unfold archive_then_confirm_delete_exec at hc
  cases hm : (if cfg.archiveUnmerged = true then archive_branch_exec cfg b st
      else Except.ok st) with
  | error st1 =>
    rw [hm, andThenE_error] at hc
    exact Except.noConfusion hc
  | ok st1 =>
    have hcnt : st1.deletedCount = st.deletedCount ∧ st1.skippedCount = st.skippedCount := by
      by_cases harc : cfg.archiveUnmerged = true
      · rw [if_pos harc] at hm
        obtain ⟨-, -, h1, h2⟩ := archive_branch_exec_ok_shape hm
        exact ⟨h1, h2⟩
      · rw [if_neg harc] at hm
        injection hm with hm
        rw [← hm]
        exact ⟨rfl, rfl⟩
    rw [hm, andThenE_ok] at hc
    split at hc
    · exact delete_branch_exec_no_ok (hcnt.1.trans hd) s hc
    · have hz : st1.skippedCount = 0 := hcnt.2.trans hs
      rw [hz] at hc
      simp at hc

/-- With `DELETED_COUNT = 0`, a merged-pass step that returns did nothing. -/
lemma stepMergedExec_ok_eq {cfg : Config} {st : St} {b : Branch} {s : St}
    (hd : st.deletedCount = 0) (h : stepMergedExec cfg st b = Except.ok s) : s = st := by
  unfold stepMergedExec at h
  split at h
  · injection h with h; exact h.symm
  · split at h
    · split at h
      · exact absurd h (delete_branch_exec_no_ok hd s)
      · injection h with h; exact h.symm
    · injection h with h; exact h.symm

/-- With zeroed counters, a stale-pass step that returns did nothing. -/
lemma stepStaleExec_ok_eq {cfg : Config} {st : St} {b : Branch} {s : St}
    (hd : st.deletedCount = 0) (hs : st.skippedCount = 0)
    (h : stepStaleExec cfg st b = Except.ok s) : s = st := by
  unfold stepStaleExec at h
  split at h
  · injection h with h; exact h.symm
  · split at h
    · injection h with h; exact h.symm
    · split at h
      · exact absurd h (acd_exec_no_ok hd hs s)
      · injection h with h; exact h.symm

/-- With zeroed counters, an orphan-pass step that returns did nothing. -/
lemma stepOrphanExec_ok_eq {cfg : Config} {st : St} {b : Branch} {s : St}
    (hd : st.deletedCount = 0) (hs : st.skippedCount = 0)
    (h : stepOrphanExec cfg st b = Except.ok s) : s = st := by
  unfold stepOrphanExec at h
  cases hm : (if 60 < b.ageDays ∧ b.merged = false then
      archive_then_confirm_delete_exec cfg b (cfg.autoMode || confirm_deletion cfg b) st
    else Except.ok st) with
  | error st1 =>
    rw [hm, andThenE_error] at h
    exact Except.noConfusion h
  | ok st1 =>
    have hst1 : st1 = st := by
      by_cases hcnd : 60 < b.ageDays ∧ b.merged = false
      · rw [if_pos hcnd] at hm
        exact absurd hm (acd_exec_no_ok hd hs st1)
      · rw [if_neg hcnd] at hm
        injection hm with hm
        exact hm.symm
    subst hst1
    rw [hm, andThenE_ok] at h
    split at h
    · exact absurd h (delete_branch_exec_no_ok hd s)
    · injection h with h; exact h.symm

/-- A cleanup run that `set -e` never killed did nothing at all: the very
first counted event — already the first dry-run report — would have killed
it, so a completed run ends in its initial state. -/
lemma runCleanupExec_ok_eq {cfg : Config} {bs : List Branch} {tags : List String} {st : St}
    (h : runCleanupExec cfg bs tags = Except.ok st) : st = initSt bs tags := by
  unfold runCleanupExec at h
  cases hm1 : cleanup_merged_branches_exec cfg (initSt bs tags) with
  | error s1 =>
    rw [hm1, andThenE_error] at h
    exact Except.noConfusion h
  | ok s1 =>
    have hs1 : s1 = initSt bs tags := by
      unfold cleanup_merged_branches_exec at hm1
      exact foldE_ok_fixed (fun b s hbs => stepMergedExec_ok_eq rfl hbs) _ s1 hm1
    subst hs1
    rw [hm1, andThenE_ok] at h
    cases hm2 : cleanup_stale_unmerged_exec cfg (initSt bs tags) with
    | error s2 =>
      rw [hm2, andThenE_error] at h
      exact Except.noConfusion h
    | ok s2 =>
      have hs2 : s2 = initSt bs tags := by
        unfold cleanup_stale_unmerged_exec at hm2
        exact foldE_ok_fixed (fun b s hbs => stepStaleExec_ok_eq rfl rfl hbs) _ s2 hm2
      subst hs2
      rw [hm2, andThenE_ok] at h
      unfold cleanup_orphaned_agent_branches_exec at h
      exact foldE_ok_fixed (fun b s hbs => stepOrphanExec_ok_eq rfl rfl hbs) _ st h

/-! ## Dry-run exit code (C3) -/

/-- C3 (corrected): the final exit logic is only reached by a run in which
no counter was ever incremented — under `set -e` the first `((X++))` from
0 kills the script with status 1.  A completed dry run therefore has
`DELETED_COUNT = 0`, reported no `Would delete` entry, and exits 2; every
other dry run (in particular one that prints a `Would delete` report, or
one that counts a skipped branch) is killed and exits 1, never 2. -/
theorem dry_run_exec_exit (cfg : Config) (bs : List Branch) (tags : List String)
    (_hdry : cfg.dryRun = true) :
    (∀ st : St, runCleanupExec cfg bs tags = Except.ok st →
      st.deletedCount = 0 ∧ st.actions.countP isDelKind = 0 ∧
        cleanupExecExit (runCleanupExec cfg bs tags) = 2) ∧
    ∀ st : St, runCleanupExec cfg bs tags = Except.error st →
      cleanupExecExit (runCleanupExec cfg bs tags) = 1 := by
  constructor
  · intro st h
    have he := runCleanupExec_ok_eq h
    subst he
    refine ⟨rfl, rfl, ?_⟩
    rw [h]
    rfl
  · intro st h
    rw [h]
    rfl

/-- Witness for the amended C3: a dry run over one fresh merged branch
completes untouched and exits 2. -/
theorem dry_run_exec_exit_witness :
    ((∀ st : St, runCleanupExec cfgDryDefault [⟨"feature/new", 2, true⟩] [] = Except.ok st →
      st.deletedCount = 0 ∧ st.actions.countP isDelKind = 0 ∧
        cleanupExecExit (runCleanupExec cfgDryDefault [⟨"feature/new", 2, true⟩] []) = 2) ∧
    ∀ st : St, runCleanupExec cfgDryDefault [⟨"feature/new", 2, true⟩] [] = Except.error st →
      cleanupExecExit (runCleanupExec cfgDryDefault [⟨"feature/new", 2, true⟩] []) = 1) ∧
    isAbort (runCleanupExec cfgDryDefault [⟨"feature/new", 2, true⟩] []) = false ∧
    cleanupExecExit (runCleanupExec cfgDryDefault [⟨"feature/new", 2, true⟩] []) = 2 :=
  ⟨dry_run_exec_exit cfgDryDefault [⟨"feature/new", 2, true⟩] [] rfl, by decide, by decide⟩

/-- Counterexample to C3 as stated: a dry run over one merged 40-day-old
branch prints one `Would delete` report and is killed by the
`((DELETED_COUNT++))` right after it — it exits 1, not 2.  And a dry run
over one stale unmerged branch (deletion declined) ends with
`DELETED_COUNT = 0` yet also exits 1, not 2. -/
theorem dry_run_report_aborts :
    isAbort (runCleanupExec cfgDryDefault [⟨"feature/old", 40, true⟩] []) = true ∧
    (execFinal (runCleanupExec cfgDryDefault [⟨"feature/old", 40, true⟩] [])).actions
      = [⟨ActionKind.delete, "feature/old", false⟩] ∧
    (execFinal (runCleanupExec cfgDryDefault [⟨"feature/old", 40, true⟩] [])).deletedCount
      = 1 ∧
    cleanupExecExit (runCleanupExec cfgDryDefault [⟨"feature/old", 40, true⟩] []) = 1 ∧
    isAbort (runCleanupExec cfgDryDefault [⟨"feature/stale", 40, false⟩] []) = true ∧
    (execFinal (runCleanupExec cfgDryDefault [⟨"feature/stale", 40, false⟩] [])).deletedCount
      = 0 ∧
    cleanupExecExit (runCleanupExec cfgDryDefault [⟨"feature/stale", 40, false⟩] []) = 1 :=
  ⟨by decide, by decide, by decide, by decide, by decide, by decide, by decide⟩

/-! ## Dry-run action log, branch by branch (C4) -/

/-- A branch that is protected, unmerged or too young is passed over by the
merged-branch loop body without touching the state. -/
lemma stepMergedExec_skip {cfg : Config} {x : Branch}
    (hx : mergedCandidate cfg x = false) :
    ∀ st : St, stepMergedExec cfg st x = Except.ok st := by
  intro st
  unfold stepMergedExec
  cases hpb : is_protected x.name with
  | true => rfl
  | false =>
    cases hmb : x.merged with
    | false => rfl
    | true =>
      by_cases ha : cfg.keepMergedDays < x.ageDays
      · exfalso
        unfold mergedCandidate at hx
        rw [hpb, hmb] at hx
        simp [ha] at hx
      · rw [if_neg ha]
        rfl

/-- The first merged candidate's dry-run report: `delete_branch` prints the
`Would delete` line, records the action, and the `((DELETED_COUNT++))`
right after kills the script. -/
lemma stepMergedExec_candidate {cfg : Config} {b : Branch}
    (hdry : cfg.dryRun = true) (hb : mergedCandidate cfg b = true) (st : St)
    (hd : st.deletedCount = 0) :
    stepMergedExec cfg st b = Except.error { st with
      deletedCount := st.deletedCount + 1,
      actions := st.actions ++ [⟨ActionKind.delete, b.name, false⟩] } := by
  unfold mergedCandidate at hb
  simp only [Bool.and_eq_true, Bool.not_eq_true', decide_eq_true_eq] at hb
  obtain ⟨⟨hp, hm⟩, ha⟩ := hb
  unfold stepMergedExec
  rw [if_neg (by simp [hp]), if_pos hm, if_pos ha]
  unfold delete_branch_exec
  rw [if_pos hdry, if_pos hd]

/-- C4 amended: in a dry run, the first listed branch that is merged, older
than `KEEP_MERGED_DAYS`, unprotected and matched by the `--branches`
filter gets exactly one non-forced `Would delete` report, and the
increment right after that report kills the run (exit status 1) — so no
later branch, in particular no other branch meeting the same conditions,
is reported at all. -/
theorem dry_run_first_merged_report (cfg : Config) (tags : List String)
    (pre post : List Branch) (b : Branch)
    (hdry : cfg.dryRun = true)
    (hpat : cfg.branchPattern b.name = true)
    (hb : mergedCandidate cfg b = true)
    (hpre : ∀ x ∈ pre, cfg.branchPattern x.name = true → mergedCandidate cfg x = false) :
    runCleanupExec cfg (pre ++ b :: post) tags
      = Except.error ⟨pre ++ b :: post, tags, 1, 0, 0, 0,
          [⟨ActionKind.delete, b.name, false⟩]⟩ ∧
    cleanupExecExit (runCleanupExec cfg (pre ++ b :: post) tags) = 1 ∧
    (execFinal (runCleanupExec cfg (pre ++ b :: post) tags)).actions.countP (isDel b.name)
      = 1 ∧
    ∀ a ∈ (execFinal (runCleanupExec cfg (pre ++ b :: post) tags)).actions,
      a.forced = false := by
  have hrun : runCleanupExec cfg (pre ++ b :: post) tags
      = Except.error ⟨pre ++ b :: post, tags, 1, 0, 0, 0,
          [⟨ActionKind.delete, b.name, false⟩]⟩ := by
    have hsnap : (initSt (pre ++ b :: post) tags).branches.filter
        (fun x => cfg.branchPattern x.name)
        = pre.filter (fun x => cfg.branchPattern x.name)
          ++ b :: post.filter (fun x => cfg.branchPattern x.name) := by
      show (pre ++ b :: post).filter (fun x => cfg.branchPattern x.name) = _
      rw [List.filter_append, List.filter_cons]
      simp [hpat]
    have hskip : ∀ (st' : St) (x : Branch),
        x ∈ pre.filter (fun x => cfg.branchPattern x.name) →
        stepMergedExec cfg st' x = Except.ok st' := by
      intro st' x hxmem
      obtain ⟨hx1, hx2⟩ := List.mem_filter.mp hxmem
      exact stepMergedExec_skip (hpre x hx1 hx2) st'
    have hphase1 : cleanup_merged_branches_exec cfg (initSt (pre ++ b :: post) tags)
        = Except.error ⟨pre ++ b :: post, tags, 1, 0, 0, 0,
            [⟨ActionKind.delete, b.name, false⟩]⟩ := by
      unfold cleanup_merged_branches_exec
      rw [hsnap, foldE_skip_prefix _ hskip, foldE_cons,
        stepMergedExec_candidate hdry hb (initSt (pre ++ b :: post) tags) rfl,
        andThenE_error]
      rfl
    unfold runCleanupExec
    rw [hphase1, andThenE_error]
  refine ⟨hrun, ?_, ?_, ?_⟩
  · rw [hrun]
    rfl
  · rw [hrun, execFinal_error]
    simp [isDel]
  · rw [hrun, execFinal_error]
    intro a ha
    simp only [List.mem_singleton] at ha
    subst ha
    rfl

/-- Witness for the amended C4: one merged 40-day-old branch followed by
another — only the first is reported, and the run dies with exit 1. -/
theorem dry_run_first_merged_report_witness :
    runCleanupExec cfgDryDefault
        ([] ++ (⟨"feature/old", 40, true⟩ : Branch) :: [⟨"feature/other", 40, true⟩]) []
      = Except.error ⟨[] ++ (⟨"feature/old", 40, true⟩ : Branch)
            :: [⟨"feature/other", 40, true⟩], [],
          1, 0, 0, 0, [⟨ActionKind.delete, (⟨"feature/old", 40, true⟩ : Branch).name,
            false⟩]⟩ ∧
    cleanupExecExit (runCleanupExec cfgDryDefault
        ([] ++ (⟨"feature/old", 40, true⟩ : Branch) :: [⟨"feature/other", 40, true⟩]) [])
      = 1 ∧
    (execFinal (runCleanupExec cfgDryDefault
        ([] ++ (⟨"feature/old", 40, true⟩ : Branch) :: [⟨"feature/other", 40, true⟩])
        [])).actions.countP (isDel (⟨"feature/old", 40, true⟩ : Branch).name) = 1 ∧
    ∀ a ∈ (execFinal (runCleanupExec cfgDryDefault
        ([] ++ (⟨"feature/old", 40, true⟩ : Branch) :: [⟨"feature/other", 40, true⟩])
        [])).actions, a.forced = false :=
  dry_run_first_merged_report cfgDryDefault [] [] [⟨"feature/other", 40, true⟩]
    ⟨"feature/old", 40, true⟩ rfl rfl (by decide)
    (fun x hx => absurd hx (List.not_mem_nil x))

/-- Counterexample to C4 as stated: two branches both merged, 40 days old,
unprotected and matching the filter.  The second meets all the claim's
conditions, yet the dry run records zero `Would delete` entries for it —
the run was already killed while reporting the first. -/
theorem dry_run_second_candidate_unreported :
    mergedCandidate cfgDryDefault ⟨"feature/two", 40, true⟩ = true ∧
    cfgDryDefault.branchPattern "feature/two" = true ∧
    is_protected "feature/two" = false ∧
    isAbort (runCleanupExec cfgDryDefault
        [⟨"feature/one", 40, true⟩, ⟨"feature/two", 40, true⟩] []) = true ∧
    (execFinal (runCleanupExec cfgDryDefault
        [⟨"feature/one", 40, true⟩, ⟨"feature/two", 40, true⟩] [])).actions.countP
      (isDel "feature/two") = 0 :=
  ⟨by decide, rfl, by decide, by decide, by decide⟩

/-! ## Archive precedes delete (C5) -/

lemma delsCovered_cons (n : String) (a : CleanupAction) (rest : List CleanupAction) :
    delsCovered n (a :: rest)
      = if isArch n a then true else if isDel n a then false else delsCovered n rest := rfl

lemma branch_ne_isArch {n : String} {a : CleanupAction} (h : a.branch ≠ n) :
    isArch n a = false := by
  simp [isArch, h]

lemma branch_ne_isDel {n : String} {a : CleanupAction} (h : a.branch ≠ n) :
    isDel n a = false := by
  simp [isDel, h]

lemma delsCovered_nfree {n : String} :
    ∀ {Δ : List CleanupAction}, (∀ x ∈ Δ, x.branch ≠ n) → delsCovered n Δ = true := by
  intro Δ
  induction Δ with
  | nil => intro _; rfl
  | cons a Δ ih =>
    intro h
    rw [delsCovered_cons, branch_ne_isArch (h a (by simp)), branch_ne_isDel (h a (by simp))]
    simp only [if_false, Bool.false_eq_true]
    exact ih (fun x hx => h x (by simp [hx]))

lemma delsCovered_append {n : String} :
    ∀ {l Δ : List CleanupAction}, delsCovered n l = true →
      (l.any (isArch n) = true ∨ delsCovered n Δ = true) →
      delsCovered n (l ++ Δ) = true := by
  intro l
  induction l with
  | nil =>
    intro Δ _ h
    rcases h with h | h
    · simp at h
    · simpa using h
  | cons a l ih =>
    intro Δ hl h
    rw [List.cons_append, delsCovered_cons]
    rw [delsCovered_cons] at hl
    by_cases harch : isArch n a = true
    · simp [harch]
    · rw [Bool.not_eq_true] at harch
      by_cases hdel : isDel n a = true
      · rw [harch, hdel] at hl
        simp at hl
      · rw [Bool.not_eq_true] at hdel
        rw [harch, hdel] at hl ⊢
        simp only [if_false, Bool.false_eq_true] at hl ⊢
        refine ih hl ?_
        rcases h with h | h
        · rw [List.any_cons, harch, Bool.false_or] at h
          exact Or.inl h
        · exact Or.inr h

/-- A single archive action is covered for any branch. -/
lemma delsCovered_arch_singleton (n m : String) :
    delsCovered n [⟨ActionKind.archive, m, false⟩] = true := by
  by_cases h : m = n
  · subst h
    rw [delsCovered_cons]
    have harch : isArch m ⟨ActionKind.archive, m, false⟩ = true := by
      simp [isArch]
    simp [harch]
  · exact delsCovered_nfree (by intro x hx; simp at hx; rw [hx]; exact h)

/-- The shared archive-then-delete body preserves the covering invariant:
when archiving is requested, the archive action — or the kill — comes
before any delete this body can record. -/
lemma acd_exec_c5 {cfg : Config} {n : String} (b : Branch) (approve : Bool) (st : St)
    (harc : cfg.archiveUnmerged = true) (h : CoveredInv n st) :
    CoveredInv n (execFinal (archive_then_confirm_delete_exec cfg b approve st)) := by
  obtain ⟨hcov, hUN⟩ := h
  unfold archive_then_confirm_delete_exec
  rw [if_pos harc]
  cases hm : archive_branch_exec cfg b st with
  | error st1 =>
    rw [andThenE_error, execFinal_error]
    obtain ⟨hact, hbr⟩ := archive_branch_exec_shape cfg b st
    rw [hm, execFinal_error] at hact hbr
    constructor
    · rcases hact with hact | hact
      · rw [hact]
        exact delsCovered_append hcov (Or.inr (delsCovered_arch_singleton n b.name))
      · rw [hact]
        exact hcov
    · intro x hx hxn
      rw [hbr] at hx
      exact hUN x hx hxn
  | ok st1 =>
    rw [andThenE_ok]
    obtain ⟨hact1, hbr1, -, -⟩ := archive_branch_exec_ok_shape hm
    have hcov1 : delsCovered n st1.actions = true := by
      rw [hact1]
      exact delsCovered_append hcov (Or.inr (delsCovered_arch_singleton n b.name))
    have hUN1 : UnmergedNamed n st1 := by
      intro x hx hxn
      rw [hbr1] at hx
      exact hUN x hx hxn
    split
    · obtain ⟨hact2, hbr2⟩ := delete_branch_exec_true_shape cfg b st1
      constructor
      · rw [hact2]
        by_cases hbn : b.name = n
        · refine delsCovered_append hcov1 (Or.inl ?_)
          rw [hact1]
          simp [List.any_append, isArch, hbn]
        · exact delsCovered_append hcov1
            (Or.inr (delsCovered_nfree (by intro x hx; simp at hx; rw [hx]; exact hbn)))
      · intro x hx hxn
        exact hUN1 x (hbr2 x hx) hxn
    · split
      · rw [execFinal_error]
        exact ⟨hcov1, fun x hx hxn => hUN1 x hx hxn⟩
      · rw [execFinal_ok]
        exact ⟨hcov1, fun x hx hxn => hUN1 x hx hxn⟩

/-- The merged-branch loop body preserves the covering invariant: a branch
named `n` stays unmerged, so this pass never deletes it. -/
lemma stepMergedExec_c5 {cfg : Config} {n : String} (st : St) (b : Branch)
    (hQ : b.name = n → b.merged = false) (h : CoveredInv n st) :
    CoveredInv n (execFinal (stepMergedExec cfg st b)) := by
  obtain ⟨hcov, hUN⟩ := h
  unfold stepMergedExec
  split
  · exact ⟨hcov, hUN⟩
  · split
    next hm =>
      split
      · have hbn : b.name ≠ n := by
          intro hx
          rw [hQ hx] at hm
          exact absurd hm (by simp)
        obtain ⟨hact, hbr⟩ := delete_branch_exec_shape cfg b false st
        constructor
        · rcases hact with hact | hact <;> rw [hact]
          · exact delsCovered_append hcov
              (Or.inr (delsCovered_nfree (by intro x hx; simp at hx; rw [hx]; exact hbn)))
          · exact hcov
        · intro x hx hxn
          exact hUN x (hbr x hx) hxn
      · exact ⟨hcov, hUN⟩
    · exact ⟨hcov, hUN⟩

/-- The stale-unmerged loop body preserves the covering invariant. -/
lemma stepStaleExec_c5 {cfg : Config} {n : String} (st : St) (b : Branch)
    (harc : cfg.archiveUnmerged = true) (h : CoveredInv n st) :
    CoveredInv n (execFinal (stepStaleExec cfg st b)) := by
  unfold stepStaleExec
  split
  · exact h
  · split
    · exact h
    · split
      · exact acd_exec_c5 b _ st harc h
      · exact h

/-- The orphaned-agent loop body preserves the covering invariant. -/
lemma stepOrphanExec_c5 {cfg : Config} {n : String} (st : St) (b : Branch)
    (harc : cfg.archiveUnmerged = true)
    (hQ : b.name = n → b.merged = false) (h : CoveredInv n st) :
    CoveredInv n (execFinal (stepOrphanExec cfg st b)) := by
  unfold stepOrphanExec
  have h1 : CoveredInv n (execFinal (if 60 < b.ageDays ∧ b.merged = false then
      archive_then_confirm_delete_exec cfg b (cfg.autoMode || confirm_deletion cfg b) st
    else Except.ok st)) := by
    split
    · exact acd_exec_c5 b _ st harc h
    · exact h
  cases hm : (if 60 < b.ageDays ∧ b.merged = false then
      archive_then_confirm_delete_exec cfg b (cfg.autoMode || confirm_deletion cfg b) st
    else Except.ok st) with
  | error st1 =>
    rw [andThenE_error, execFinal_error]
    rw [hm, execFinal_error] at h1
    exact h1
  | ok st1 =>
    rw [hm, execFinal_ok] at h1
    rw [andThenE_ok]
    obtain ⟨hcov1, hUN1⟩ := h1
    split
    next hm2 =>
      have hbn : b.name ≠ n := by
        intro hx
        rw [hQ hx] at hm2
        exact absurd hm2.2 (by simp)
      obtain ⟨hact, hbr⟩ := delete_branch_exec_shape cfg b false st1
      constructor
      · rcases hact with hact | hact <;> rw [hact]
        · exact delsCovered_append hcov1
            (Or.inr (delsCovered_nfree (by intro x hx; simp at hx; rw [hx]; exact hbn)))
        · exact hcov1
      · intro x hx hxn
        exact hUN1 x (hbr x hx) hxn
    · exact ⟨hcov1, hUN1⟩

/-- The covering invariant holds at the final state of a whole cleanup run
— completed or killed — for any branch name all of whose bearers in the
repository are unmerged. -/
lemma runCleanupExec_c5 (cfg : Config) (bs : List Branch) (tags : List String) (n : String)
    (harc : cfg.archiveUnmerged = true)
    (hQ : ∀ b ∈ bs, b.name = n → b.merged = false) :
    CoveredInv n (execFinal (runCleanupExec cfg bs tags)) := by
  have h0 : CoveredInv n (initSt bs tags) := ⟨rfl, fun x hx hxn => hQ x hx hxn⟩
  have h1 : CoveredInv n (execFinal (cleanup_merged_branches_exec cfg (initSt bs tags))) := by
    unfold cleanup_merged_branches_exec
    refine foldE_preserveE (CoveredInv n)
      (fun b : Branch => b.name = n → b.merged = false)
      (fun s b hs hb => stepMergedExec_c5 s b hb hs) _ _ h0 ?_
    intro x hx
    exact h0.2 x (List.mem_filter.mp hx).1
  unfold runCleanupExec
  cases hm1 : cleanup_merged_branches_exec cfg (initSt bs tags) with
  | error s1 =>
    rw [andThenE_error, execFinal_error]
    rw [hm1, execFinal_error] at h1
    exact h1
  | ok s1 =>
    rw [hm1, execFinal_ok] at h1
    rw [andThenE_ok]
    have h2 : CoveredInv n (execFinal (cleanup_stale_unmerged_exec cfg s1)) := by
      unfold cleanup_stale_unmerged_exec
      exact foldE_preserveE (CoveredInv n) (fun _ : Branch => True)
        (fun s b hs _ => stepStaleExec_c5 s b harc hs) _ _ h1 (fun _ _ => trivial)
    cases hm2 : cleanup_stale_unmerged_exec cfg s1 with
    | error s2 =>
      rw [andThenE_error, execFinal_error]
      rw [hm2, execFinal_error] at h2
      exact h2
    | ok s2 =>
      rw [hm2, execFinal_ok] at h2
      rw [andThenE_ok]
      unfold cleanup_orphaned_agent_branches_exec
      refine foldE_preserveE (CoveredInv n)
        (fun b : Branch => b.name = n → b.merged = false)
        (fun s b hs hb => stepOrphanExec_c5 s b harc hb hs) _ _ h2 ?_
      intro x hx
      exact h2.2 x (List.mem_filter.mp hx).1

/-- C5: with `--archive-unmerged` requested, in the sequence of actions a
cleanup run records — whether it completes or `set -e` kills it — every
delete on a stale unmerged branch is preceded by an earlier archive on the
same branch.  In particular a colliding archive tag cannot produce an
unarchived delete: the collision's `return 1` kills the script before any
delete is attempted. -/
theorem archive_precedes_delete_exec (cfg : Config) (bs : List Branch) (tags : List String)
    (b : Branch) (harc : cfg.archiveUnmerged = true)
    (hnodup : (bs.map Branch.name).Nodup) (hmem : b ∈ bs)
    (hunmerged : b.merged = false) (_hstale : cfg.staleDays < b.ageDays) :
    delsCovered b.name (execFinal (runCleanupExec cfg bs tags)).actions = true := by
  have hQ : ∀ x ∈ bs, x.name = b.name → x.merged = false := by
    intro x hx hxn
    have hxb : x = b := List.inj_on_of_nodup_map hnodup hx hmem hxn
    rw [hxb]
    exact hunmerged
  exact (runCleanupExec_c5 cfg bs tags b.name harc hQ).1

/-- Witness for C5: one stale unmerged branch, dry run in auto mode with
archiving — the recorded trace contains its delete, preceded by its
archive. -/
theorem archive_precedes_delete_exec_witness :
    delsCovered "feature/z"
        (execFinal (runCleanupExec cfgDryAutoArchive [⟨"feature/z", 70, false⟩] [])).actions
      = true ∧
    (execFinal (runCleanupExec cfgDryAutoArchive
        [⟨"feature/z", 70, false⟩] [])).actions.any (isDel "feature/z") = true :=
  ⟨archive_precedes_delete_exec cfgDryAutoArchive [⟨"feature/z", 70, false⟩] []
      ⟨"feature/z", 70, false⟩ rfl (by decide) (by decide) rfl (by decide),
   by decide⟩

/-! ## The Branch Provisioner (C7, C8) -/

/-- C7: the Provisioner's session-id validation accepts exactly the
alphanumeric strings of 24 to 32 characters — 23 is rejected, 24 and 32
are accepted, 33 is rejected — and on rejection the run exits 1 before
performing any git operation. -/
theorem session_id_boundary :
    sessionIdMatches (String.mk (List.replicate 23 'a')) = false ∧
    sessionIdMatches (String.mk (List.replicate 24 'a')) = true ∧
    sessionIdMatches (String.mk (List.replicate 32 'a')) = true ∧
    sessionIdMatches (String.mk (List.replicate 33 'a')) = false ∧
    ∀ (env : GitEnv) (task base agent sid : String),
      sessionIdMatches sid = false →
      prepare_agent_branch env task sid base agent = ⟨1, none, []⟩ := by
  refine ⟨by decide, by decide, by decide, by decide, ?_⟩
  intro env task base agent sid hsid
  unfold prepare_agent_branch
  rw [hsid]
  rfl

/-- Witness for C7: a 23-character session id makes a concrete provisioning
run exit 1 with no ref operation. -/
theorem session_id_boundary_witness :
    prepare_agent_branch envMainOnly "task" (String.mk (List.replicate 23 'a'))
      "develop" "claude" = ⟨1, none, []⟩ :=
  session_id_boundary.2.2.2.2 envMainOnly "task" "develop" "claude"
    (String.mk (List.replicate 23 'a')) (by decide)

/-- C8: the documented provisioning scenario — task `"Fix Auth!! Bug"`,
session `01M9nP2Q3R4S5T6U7V8W9X0Y`, base `main`, agent `claude` —
sanitizes the task to `fix-auth-bug`, constructs
`claude/fix-auth-bug-01M9nP2Q3R4S5T6U7V8W9X0Y`, and exits 0 with that
branch as output. -/
theorem provision_scenario :
    sanitize_task_name "Fix Auth!! Bug" = some "fix-auth-bug" ∧
    construct_branch_name "fix-auth-bug" "01M9nP2Q3R4S5T6U7V8W9X0Y" "claude"
      = "claude/fix-auth-bug-01M9nP2Q3R4S5T6U7V8W9X0Y" ∧
    (prepare_agent_branch envMainOnly "Fix Auth!! Bug" "01M9nP2Q3R4S5T6U7V8W9X0Y"
      "main" "claude").exitCode = 0 ∧
    (prepare_agent_branch envMainOnly "Fix Auth!! Bug" "01M9nP2Q3R4S5T6U7V8W9X0Y"
      "main" "claude").branch
      = some "claude/fix-auth-bug-01M9nP2Q3R4S5T6U7V8W9X0Y" :=
  ⟨by decide, by decide, by decide, by decide⟩

/-! ## Logging wrappers (C9) -/

/-- C9 amended: `logAgentMessage` returns the generated identifiers on
every backend outcome, including a thrown exception (its try/catch turns
everything into at most a warning).  `logAgentCommunication` returns
normally on a database error result (null) and on any log-shipping
outcome, but a thrown exception from the database client is outside its
handling and would propagate. -/
theorem logging_failures_swallowed :
    (∀ (messageId conversationId : String) (db : DbOutcome),
      (logAgentMessage messageId conversationId db).1
        = Except.ok (messageId, conversationId)) ∧
    ∀ (messageId : String) (db : DbOutcome) (loki : SinkOutcome),
      (∀ m, db ≠ DbOutcome.thrown m) →
      ∃ v, (logAgentCommunication messageId db loki).1 = Except.ok v := by
  constructor
  · intro mid cid db
    cases db <;> rfl
  · intro mid db loki hdb
    cases db with
    | ok => cases loki <;> exact ⟨_, rfl⟩
    | errResult m => exact ⟨none, rfl⟩
    | thrown m => exact absurd rfl (hdb m)

/-- Witness for the amended C9: on a database error result both wrappers
return normally. -/
theorem logging_failures_swallowed_witness :
    (logAgentMessage "msg-1" "conv-1" (DbOutcome.errResult "db down")).1
      = Except.ok ("msg-1", "conv-1") ∧
    ∃ v, (logAgentCommunication "msg-1" (DbOutcome.errResult "db down")
      SinkOutcome.ok).1 = Except.ok v :=
  ⟨logging_failures_swallowed.1 "msg-1" "conv-1" (DbOutcome.errResult "db down"),
   logging_failures_swallowed.2 "msg-1" (DbOutcome.errResult "db down") SinkOutcome.ok
     (by intro m h; cases h)⟩

/-- Counterexample to C9 as stated: a thrown (rejected) exception from the
database client propagates out of `logAgentCommunication`, which has no
try/catch around its awaited insert. -/
theorem logging_thrown_propagates :
    (logAgentCommunication "msg-1" (DbOutcome.thrown "fetch failed") SinkOutcome.ok).1
      = Except.error "fetch failed" := rfl

/-! ## The archive-tag mapping (C10) -/

/-- Counterexample to C10 as stated: a colliding archive ends in `return 1`
from a bare call, which under `set -e` is not "only a warning" — it kills
the script (exit status 1), nothing is counted, and the branch is not
deleted.  Here the colliding tag exists when the run starts, so the very
first archive attempt collides and the run records no action at all. -/
theorem archive_collision_aborts :
    tagName "agent/x/y-z" = tagName "agent/x-y/z" ∧
    ("agent/x/y-z" : String) ≠ "agent/x-y/z" ∧
    isAbort (runCleanupExec cfgAutoArchive [⟨"agent/x-y/z", 70, false⟩]
      ["archive/agent-x-y-z"]) = true ∧
    cleanupExecExit (runCleanupExec cfgAutoArchive [⟨"agent/x-y/z", 70, false⟩]
      ["archive/agent-x-y-z"]) = 1 ∧
    execFinal (runCleanupExec cfgAutoArchive [⟨"agent/x-y/z", 70, false⟩]
        ["archive/agent-x-y-z"])
      = ⟨[⟨"agent/x-y/z", 70, false⟩], ["archive/agent-x-y-z"], 0, 0, 0, 0, []⟩ :=
  ⟨by decide, by decide, by decide, by decide, by decide⟩

/-- C10 amended: the tag mapping — `archive/` plus the branch name with
every slash replaced by a hyphen — is indeed not injective: the distinct
branches `agent/x/y-z` and `agent/x-y/z` map to the same tag.  But a
collision does not pass with only a warning.  In one real run over both
branches the collision is not even reached: the first successful archive's
`((ARCHIVED_COUNT++))` from 0 kills the run (exit 1) right after the tag
is created and before any delete.  A following run, with the tag now
existing, warns about the collision and is killed by the bare
`archive_branch` call's `return 1` (exit 1), counting nothing and deleting
nothing. -/
theorem archive_tag_collision_runs :
    tagName "agent/x/y-z" = tagName "agent/x-y/z" ∧
    ("agent/x/y-z" : String) ≠ "agent/x-y/z" ∧
    isAbort (runCleanupExec cfgAutoArchive
      [⟨"agent/x/y-z", 70, false⟩, ⟨"agent/x-y/z", 70, false⟩] []) = true ∧
    execFinal (runCleanupExec cfgAutoArchive
        [⟨"agent/x/y-z", 70, false⟩, ⟨"agent/x-y/z", 70, false⟩] [])
      = ⟨[⟨"agent/x/y-z", 70, false⟩, ⟨"agent/x-y/z", 70, false⟩],
          ["archive/agent-x-y-z"], 0, 1, 0, 0,
          [⟨ActionKind.archive, "agent/x/y-z", false⟩]⟩ ∧
    cleanupExecExit (runCleanupExec cfgAutoArchive
        [⟨"agent/x/y-z", 70, false⟩, ⟨"agent/x-y/z", 70, false⟩] []) = 1 ∧
    (execFinal (runCleanupExec cfgAutoArchive
        [⟨"agent/x/y-z", 70, false⟩, ⟨"agent/x-y/z", 70, false⟩] [])).actions.countP
      isDelKind = 0 ∧
    isAbort (runCleanupExec cfgAutoArchive
      [⟨"agent/x/y-z", 70, false⟩, ⟨"agent/x-y/z", 70, false⟩]
      ["archive/agent-x-y-z"]) = true ∧
    execFinal (runCleanupExec cfgAutoArchive
        [⟨"agent/x/y-z", 70, false⟩, ⟨"agent/x-y/z", 70, false⟩] ["archive/agent-x-y-z"])
      = ⟨[⟨"agent/x/y-z", 70, false⟩, ⟨"agent/x-y/z", 70, false⟩],
          ["archive/agent-x-y-z"], 0, 0, 0, 0, []⟩ ∧
    (execFinal (runCleanupExec cfgAutoArchive
        [⟨"agent/x/y-z", 70, false⟩, ⟨"agent/x-y/z", 70, false⟩]
        ["archive/agent-x-y-z"])).actions.countP isDelKind = 0 :=
  ⟨by decide, by decide, by decide, by decide, by decide, by decide, by decide,
   by decide, by decide⟩
